import Mathlib

/-!
# Verification of the Colemak-Vim key-engine slice

A shallow embedding, in Lean 4, of the logic-bearing parts of the
repository (a VSCodeVim-derived modal editing extension):

* `src/src/error.ts` — the `ErrorCode` enumeration, the `ErrorMessage`
  table, `VimError` and `ForceStopRemappingError`;
* `src/src/state/globalState.ts` — the `GlobalState` accessor class whose
  backing fields are all `static` (process-wide);
* `src/extension.ts` — the document-change handler, the command override
  wrapper and the `toggleVim` command;
* `src/src/cmd_line/commands/sort.ts` — `SortCommand.sortLines`.

Parts of the engine that are referenced but whose sources are not part of
this slice (the task queue, the remap resolver, the mode-handler failure
policy, the host editor's edit application) are modelled from the
specification; each such definition carries a doc comment starting with
`Modelled from the spec:`.
-/

namespace ColemakVim

/-! ## Modes (spec §3; `src/src/mode/mode.ts` is referenced by the sources
but not part of the slice — the mode list is the spec's). -/

inductive ModeName where
  | Normal
  | Insert
  | Visual
  | VisualLine
  | VisualBlock
  | Replace
  | OperatorPendingMode
  | SearchInProgressMode
  | CommandlineInProgress
  | Disabled
  deriving DecidableEq, Repr

/-! ## `src/src/error.ts` -/

/-- The `ErrorCode` enum of `src/src/error.ts` (lines 5–33). -/
inductive ErrorCode where
  | InvalidAddress
  | MarkNotSet
  | NoAlternateFile
  | NoInsertedTextYet
  | NoFileName
  | NoPreviousCommand
  | NoPreviousRegularExpression
  | NoWriteSinceLastChange
  | ErrorWritingToFile
  | RecursiveMapping
  | NoStringUnderCursor
  | NothingInRegister
  | InvalidRegisterName
  | SearchHitTop
  | SearchHitBottom
  | CannotCloseLastWindow
  | ArgumentRequired
  | InvalidArgument
  | NoRangeAllowed
  | PatternNotFound
  | TrailingCharacters
  | NotAnEditorCommand
  | NoBuffersDeleted
  | UnknownOption
  | AtStartOfChangeList
  | AtEndOfChangeList
  | ChangeListIsEmpty
  deriving DecidableEq, Repr

/-- The numeric value of each `ErrorCode` member (error.ts lines 5–33). -/
def ErrorCode.code : ErrorCode → Nat
  | .InvalidAddress => 14
  | .MarkNotSet => 20
  | .NoAlternateFile => 23
  | .NoInsertedTextYet => 29
  | .NoFileName => 32
  | .NoPreviousCommand => 34
  | .NoPreviousRegularExpression => 35
  | .NoWriteSinceLastChange => 37
  | .ErrorWritingToFile => 208
  | .RecursiveMapping => 223
  | .NoStringUnderCursor => 348
  | .NothingInRegister => 353
  | .InvalidRegisterName => 354
  | .SearchHitTop => 384
  | .SearchHitBottom => 385
  | .CannotCloseLastWindow => 444
  | .ArgumentRequired => 471
  | .InvalidArgument => 474
  | .NoRangeAllowed => 481
  | .PatternNotFound => 486
  | .TrailingCharacters => 488
  | .NotAnEditorCommand => 492
  | .NoBuffersDeleted => 516
  | .UnknownOption => 518
  | .AtStartOfChangeList => 662
  | .AtEndOfChangeList => 663
  | .ChangeListIsEmpty => 664

/-- The `ErrorMessage` table of `src/src/error.ts` (lines 35–63), indexed
by the enum member rather than the raw number (the table has exactly one
entry per `ErrorCode` member). -/
def ErrorMessage : ErrorCode → String
  | .InvalidAddress => "Invalid address"
  | .MarkNotSet => "Mark not set"
  | .NoAlternateFile => "No alternate file"
  | .NoInsertedTextYet => "No inserted text yet"
  | .NoFileName => "No file name"
  | .NoPreviousCommand => "No previous command"
  | .NoPreviousRegularExpression => "No previous regular expression"
  | .NoWriteSinceLastChange => "No write since last change (add ! to override)"
  | .ErrorWritingToFile => "Error writing to file"
  | .RecursiveMapping => "Recursive mapping"
  | .NoStringUnderCursor => "No string under cursor"
  | .NothingInRegister => "Nothing in register"
  | .InvalidRegisterName => "Invalid register name"
  | .SearchHitTop => "Search hit TOP without match for"
  | .SearchHitBottom => "Search hit BOTTOM without match for"
  | .CannotCloseLastWindow => "Cannot close last window"
  | .ArgumentRequired => "Argument required"
  | .InvalidArgument => "Invalid argument"
  | .NoRangeAllowed => "No range allowed"
  | .PatternNotFound => "Pattern not found"
  | .TrailingCharacters => "Trailing characters"
  | .NotAnEditorCommand => "Not an editor command"
  | .NoBuffersDeleted => "No buffers were deleted"
  | .UnknownOption => "Unknown option"
  | .AtStartOfChangeList => "At start of changelist"
  | .AtEndOfChangeList => "At end of changelist"
  | .ChangeListIsEmpty => "changelist is empty"

/-- `class VimError extends Error` (error.ts lines 65–86): a code plus a
message. -/
structure VimError where
  code : Nat
  message : String
  deriving DecidableEq, Repr

/-- `VimError.fromCode(code, extraValue?)` (error.ts lines 75–81).  For a
member of the enum, `ErrorMessage[code]` is always present, so the
`unknown error code` throw is unreachable; the optional `extraValue` is
appended after `": "`. -/
def VimError.fromCode (code : ErrorCode) (extraValue : Option String) : VimError :=
  ⟨code.code, ErrorMessage code ++ (match extraValue with
    | some v => ": " ++ v
    | none => "")⟩

/-- `VimError.toString()` (error.ts lines 83–85): `` `E${code}: ${message}` ``. -/
def VimError.toString (e : VimError) : String :=
  "E" ++ ToString.toString e.code ++ ": " ++ e.message

/-- `class ForceStopRemappingError extends Error` (error.ts lines 92–100):
carries only an internal `reason`, defaulting to `'StopRemapping'`. -/
structure ForceStopRemappingError where
  reason : String
  deriving DecidableEq, Repr

/-- The default-argument construction `new ForceStopRemappingError()`. -/
def ForceStopRemappingError.default : ForceStopRemappingError :=
  ⟨"StopRemapping"⟩

/-- `ForceStopRemappingError.fromVimError` (error.ts lines 97–99). -/
def ForceStopRemappingError.fromVimError (vimError : VimError) : ForceStopRemappingError :=
  ⟨vimError.toString⟩

/-- The three error classes declared or extended in `src/src/error.ts`:
the built-in `Error` base class, `VimError` and `ForceStopRemappingError`. -/
inductive JsErrorClass where
  | error
  | vimError
  | forceStopRemappingError
  deriving DecidableEq, Repr

/-- The direct `extends` clause of each class in error.ts: `VimError
extends Error` (line 65) and `ForceStopRemappingError extends Error`
(line 92); `Error` itself has no parent in this hierarchy. -/
def JsErrorClass.directParent : JsErrorClass → Option JsErrorClass
  | .error => none
  | .vimError => some .error
  | .forceStopRemappingError => some .error

/-- The superclass chain of a class, starting with the class itself
(fuelled; the hierarchy in error.ts has depth ≤ 1). -/
def JsErrorClass.ancestorChain : Nat → JsErrorClass → List JsErrorClass
  | 0, c => [c]
  | n + 1, c =>
    c :: (match c.directParent with
      | none => []
      | some p => JsErrorClass.ancestorChain n p)

/-- `a` is a subtype (subclass, reflexively) of `b` in the error.ts class
hierarchy. -/
def JsErrorClass.isSubclassOf (a b : JsErrorClass) : Bool :=
  b ∈ JsErrorClass.ancestorChain 3 a

/-! ## `src/src/state/globalState.ts`

The payload types below (`RecordedState`, `SearchState`,
`SubstituteState`, `JumpTracker`) live in files outside this slice; the
claims about `GlobalState` treat them as opaque data, so they are
embedded as the record of data `globalState.ts` visibly passes to them
(`new SearchState(direction, position, searchString, undefined, mode)`). -/

inductive SearchDirection where
  | Forward
  | Backward
  deriving DecidableEq, Repr

/-- The search state recorded per previous search (spec §3): direction,
anchor position, pattern string and originating mode. -/
structure SearchState where
  direction : SearchDirection
  position : Nat × Nat
  searchString : String
  mode : ModeName
  deriving DecidableEq, Repr

/-- The keystroke sequence of a complete action (spec §3 `RecordedState`);
its internals are irrelevant to the `GlobalState` claims. -/
structure RecordedState where
  actionKeys : List String
  deriving DecidableEq, Repr

/-- Substitute state for `:s` (payload opaque to the GlobalState claims). -/
structure SubstituteState where
  searchPattern : String
  replaceString : String
  deriving DecidableEq, Repr

/-- Jump tracker (payload opaque to the GlobalState claims). -/
structure JumpTracker where
  jumps : List (Nat × Nat)
  deriving DecidableEq, Repr

/-- The `static` backing fields of `class GlobalState`
(globalState.ts lines 12–52).  In TypeScript every one of these fields is
declared `private static`, i.e. there is exactly one copy per process;
the `_searchHistory` field holds the lazily-created `SearchHistory`
object, embedded as the list of persisted history items it loaded
(`undefined` ↦ `none`). -/
structure GlobalStateStatic where
  _previousFullAction : Option RecordedState
  _searchStatePrevious : List SearchState
  _substituteState : Option SubstituteState
  _searchState : Option SearchState
  _searchStateIndex : Int
  _hl : Bool
  _jumpTracker : JumpTracker
  _searchHistory : Option (List String)
  deriving DecidableEq, Repr

/-- An *instance* of `class GlobalState`.  The class declares no instance
fields at all — every field is `static` — so an instance is nothing but
an identity; accessors take the instance and the process-wide static
state separately, mirroring how TypeScript resolves `GlobalState._field`
inside instance methods. -/
structure GlobalState where
  instanceId : Nat
  deriving DecidableEq, Repr

/-- Getter `searchStatePrevious` (globalState.ts lines 57–59). -/
def GlobalState.getSearchStatePrevious (_ : GlobalState) (σ : GlobalStateStatic) :
    List SearchState :=
  σ._searchStatePrevious

/-- Setter `searchStatePrevious` (globalState.ts lines 61–63): note that
it *concatenates* the assigned states onto the static list. -/
def GlobalState.setSearchStatePrevious (_ : GlobalState) (σ : GlobalStateStatic)
    (states : List SearchState) : GlobalStateStatic :=
  { σ with _searchStatePrevious := σ._searchStatePrevious ++ states }

/-- Getter `previousFullAction` (globalState.ts lines 91–93). -/
def GlobalState.getPreviousFullAction (_ : GlobalState) (σ : GlobalStateStatic) :
    Option RecordedState :=
  σ._previousFullAction

/-- Setter `previousFullAction` (globalState.ts lines 95–97). -/
def GlobalState.setPreviousFullAction (_ : GlobalState) (σ : GlobalStateStatic)
    (state : Option RecordedState) : GlobalStateStatic :=
  { σ with _previousFullAction := state }

/-- Getter `substituteState` (globalState.ts lines 99–101). -/
def GlobalState.getSubstituteState (_ : GlobalState) (σ : GlobalStateStatic) :
    Option SubstituteState :=
  σ._substituteState

/-- Setter `substituteState` (globalState.ts lines 103–105). -/
def GlobalState.setSubstituteState (_ : GlobalState) (σ : GlobalStateStatic)
    (state : Option SubstituteState) : GlobalStateStatic :=
  { σ with _substituteState := state }

/-- Getter `searchState` (globalState.ts lines 107–109). -/
def GlobalState.getSearchState (_ : GlobalState) (σ : GlobalStateStatic) :
    Option SearchState :=
  σ._searchState

/-- Setter `searchState` (globalState.ts lines 111–113). -/
def GlobalState.setSearchState (_ : GlobalState) (σ : GlobalStateStatic)
    (state : Option SearchState) : GlobalStateStatic :=
  { σ with _searchState := state }

/-- Getter `searchStateIndex` (globalState.ts lines 115–117). -/
def GlobalState.getSearchStateIndex (_ : GlobalState) (σ : GlobalStateStatic) : Int :=
  σ._searchStateIndex

/-- Setter `searchStateIndex` (globalState.ts lines 119–121). -/
def GlobalState.setSearchStateIndex (_ : GlobalState) (σ : GlobalStateStatic)
    (state : Int) : GlobalStateStatic :=
  { σ with _searchStateIndex := state }

/-- Getter `hl` (globalState.ts lines 123–125). -/
def GlobalState.getHl (_ : GlobalState) (σ : GlobalStateStatic) : Bool :=
  σ._hl

/-- Setter `hl` (globalState.ts lines 127–129). -/
def GlobalState.setHl (_ : GlobalState) (σ : GlobalStateStatic) (enabled : Bool) :
    GlobalStateStatic :=
  { σ with _hl := enabled }

/-- Getter `jumpTracker` (globalState.ts lines 131–133); there is no
setter — callers mutate the single shared tracker object. -/
def GlobalState.getJumpTracker (_ : GlobalState) (σ : GlobalStateStatic) : JumpTracker :=
  σ._jumpTracker

/-- The `SearchState` that `GlobalState.load` constructs for each
persisted history item (globalState.ts lines 72–79):
`new SearchState(SearchDirection.Forward, new Position(0, 0), val,
undefined, ModeName.Normal)`. -/
def loadedSearchState (val : String) : SearchState :=
  ⟨SearchDirection.Forward, (0, 0), val, ModeName.Normal⟩

/-- `GlobalState.load` (globalState.ts lines 65–83).  When the static
`_searchHistory` is still `undefined` it creates the history object,
loads the persisted items (`persisted` stands for what
`SearchHistory.load` read from disk — that class is outside this slice),
and pushes one `SearchState` per item onto the static
`searchStatePrevious` array; otherwise the call does nothing. -/
def GlobalState.load (_ : GlobalState) (σ : GlobalStateStatic)
    (persisted : List String) : GlobalStateStatic :=
  match σ._searchHistory with
  | none =>
    { σ with
      _searchHistory := some persisted,
      _searchStatePrevious := σ._searchStatePrevious ++ persisted.map loadedSearchState }
  | some _ => σ

/-- `GlobalState.addNewSearchHistoryItem` (globalState.ts lines 85–89):
adds to the history object only if it has been created
(`SearchHistory.add` is outside this slice; it appends the item). -/
def GlobalState.addNewSearchHistoryItem (_ : GlobalState) (σ : GlobalStateStatic)
    (searchString : String) : GlobalStateStatic :=
  match σ._searchHistory with
  | none => σ
  | some h => { σ with _searchHistory := some (h ++ [searchString]) }

/-- The mutating operations `globalState.ts` offers (each carries its
argument); used to quantify over "any sequence of GlobalState
operations". -/
inductive GlobalStateOp where
  | setSearchStatePrevious (states : List SearchState)
  | setPreviousFullAction (state : Option RecordedState)
  | setSubstituteState (state : Option SubstituteState)
  | setSearchState (state : Option SearchState)
  | setSearchStateIndex (state : Int)
  | setHl (enabled : Bool)
  | load (persisted : List String)
  | addNewSearchHistoryItem (searchString : String)

/-- Apply one `GlobalState` operation through a given instance. -/
def applyGlobalStateOp (g : GlobalState) (op : GlobalStateOp)
    (σ : GlobalStateStatic) : GlobalStateStatic :=
  match op with
  | .setSearchStatePrevious states => g.setSearchStatePrevious σ states
  | .setPreviousFullAction state => g.setPreviousFullAction σ state
  | .setSubstituteState state => g.setSubstituteState σ state
  | .setSearchState state => g.setSearchState σ state
  | .setSearchStateIndex state => g.setSearchStateIndex σ state
  | .setHl enabled => g.setHl σ enabled
  | .load persisted => g.load σ persisted
  | .addNewSearchHistoryItem s => g.addNewSearchHistoryItem σ s

/-! ## `src/extension.ts` — document-change handling, command overrides,
`toggleVim` -/

/-- One element of `event.contentChanges`: an affected range plus the new
text. -/
structure ContentChange where
  rangeStartLine : Nat
  rangeStartChar : Nat
  rangeEndLine : Nat
  rangeEndChar : Nat
  text : String
  deriving DecidableEq, Repr, Inhabited

/-- A `TextDocumentChangeEvent` as far as the handler reads it. -/
structure TextDocumentChangeEvent where
  contentChanges : List ContentChange
  deriving DecidableEq, Repr

/-- `textWasDeleted` (extension.ts lines 86–89). -/
def textWasDeleted (event : TextDocumentChangeEvent) : Bool :=
  match event.contentChanges with
  | [c] => c.text == "" && !(c.rangeStartLine == c.rangeEndLine)
  | _ => false

/-- `textWasAdded` (extension.ts lines 91–94). -/
def textWasAdded (event : TextDocumentChangeEvent) : Bool :=
  match event.contentChanges with
  | [c] => (c.text == "\n" || c.text == "\r\n") && c.rangeStartLine == c.rangeEndLine
  | _ => false

/-- The jump-tracker call the document-change handler makes
(extension.ts lines 101–109). -/
inductive JumpTrackerCall where
  | handleTextDeleted (range : ContentChange)
  | handleTextAdded (range : ContentChange)
  deriving DecidableEq, Repr

/-- `contentChangeHandler` (extension.ts lines 114–130): appends the
event's content changes to the mode handler's
`historyTracker.currentContentChanges` — but only when the handler's
current mode is Insert (`undefined` ↦ `none` for a never-initialized
change list). -/
def contentChangeHandler (currentMode : ModeName)
    (currentContentChanges : Option (List ContentChange))
    (eventChanges : List ContentChange) : Option (List ContentChange) :=
  if currentMode = ModeName.Insert then
    some (currentContentChanges.getD [] ++ eventChanges)
  else
    currentContentChanges

/-- The `onDidChangeTextDocument` handler (extension.ts lines 96–147) as
it acts on one mode handler whose document matches the event: when the
extension is disabled it returns immediately (no jump tracking, no
content-change recording); otherwise it routes single deletions/newline
insertions to the jump tracker and runs `contentChangeHandler`. -/
def onDidChangeTextDocument (disableExtension : Bool)
    (event : TextDocumentChangeEvent) (currentMode : ModeName)
    (currentContentChanges : Option (List ContentChange)) :
    Option (List ContentChange) × Option JumpTrackerCall :=
  if disableExtension then
    (currentContentChanges, none)
  else
    let jumpCall : Option JumpTrackerCall :=
      if textWasDeleted event then
        some (JumpTrackerCall.handleTextDeleted (event.contentChanges.headD default))
      else if textWasAdded event then
        some (JumpTrackerCall.handleTextAdded (event.contentChanges.headD default))
      else
        none
    (contentChangeHandler currentMode currentContentChanges event.contentChanges, jumpCall)

/-- What the `overrideCommand` wrapper (extension.ts lines 346–370) does
with an incoming host command invocation (e.g. `type`, i.e. a key
event). -/
inductive CommandDispatch where
  /-- `vscode.commands.executeCommand('default:' + command, args)`: the
  event is forwarded unchanged to the host's default handling. -/
  | forwardDefault
  /-- Early `return` with no action. -/
  | ignored
  /-- The extension's own callback runs (mode-handler processing). -/
  | handled
  deriving DecidableEq, Repr

/-- The guard chain of `overrideCommand` (extension.ts lines 351–367):
disabled → forward to default; no active editor → ignore; `debug:input`
document → forward to default; otherwise handle. -/
def overrideCommandDispatch (disableExtension : Bool) (activeEditor : Bool)
    (isDebugInput : Bool) : CommandDispatch :=
  if disableExtension then
    CommandDispatch.forwardDefault
  else if !activeEditor then
    CommandDispatch.ignored
  else if isDebugInput then
    CommandDispatch.forwardDefault
  else
    CommandDispatch.handled

/-- Result of running the `toggleVim` command (extension.ts lines
299–302 together with `toggleExtension`, lines 329–344). -/
structure ToggleVimResult where
  /-- The new value of `configuration.disableExtension`. -/
  disableExtension : Bool
  /-- The new value of the `vim.active` host context
  (`VsCodeContext.Set('vim.active', !isDisabled)`). -/
  vimActiveContext : Option Bool
  /-- The synthetic key `toggleExtension` feeds to the mode handler. -/
  keySent : Option String
  /-- Whether `ModeHandlerMap.clear()` ran. -/
  handlerMapCleared : Bool
  deriving DecidableEq, Repr

/-- The `toggleVim` command (extension.ts lines 299–302): registered via
`registerCommand`, whose wrapper only requires an active editor (it is
*not* gated on `disableExtension`).  It flips
`configuration.disableExtension` and calls `toggleExtension`, which sets
the `vim.active` context and — when an editor is open — feeds
`<ExtensionDisable>`/`<ExtensionEnable>` to the mode handler (clearing
the handler map when disabling). -/
def toggleVimCommand (disableExtension : Bool) (activeEditor : Bool) : ToggleVimResult :=
  if !activeEditor then
    -- registerCommand wrapper: `if (!vscode.window.activeTextEditor) return;`
    ⟨disableExtension, none, none, false⟩
  else
    let newDisabled := !disableExtension
    if newDisabled then
      ⟨newDisabled, some false, some "<ExtensionDisable>", true⟩
    else
      ⟨newDisabled, some true, some "<ExtensionEnable>", false⟩

/-- Modelled from the spec: the delivery of a bound key combination to
the engine.  The commands registered for
`configuration.boundKeyCombinations` (extension.ts lines 304–306) are
fired by the host's keybinding table, which is outside this slice; per
the spec ("Disabled ignores all keys except the re-enable toggle", §4.3)
those keybindings are conditioned on the `vim.active` context that
`toggleExtension` maintains (extension.ts line 330), so the host delivers
them only while that context is true. -/
def deliverBoundKeyCombination (vimActiveContext : Bool) (key : String) : Option String :=
  if vimActiveContext then some key else none

/-! ## Failure handling at the key-processing entry points

`ModeHandler.handleKeyEvent` and the remapper are outside this slice
(`src/src/mode/modeHandler.ts` is only imported here), so the policy that
*consumes* `VimError` / `ForceStopRemappingError` is modelled from the
spec. -/

/-- A value thrown inside the engine: either a `VimError` (user-input
class) or a `ForceStopRemappingError`.  These are the two throwable
classes `src/src/error.ts` defines. -/
inductive ThrownError where
  | vim (e : VimError)
  | forceStop (e : ForceStopRemappingError)
  deriving DecidableEq, Repr

/-- Outcome of a key-processing entry point that caught a thrown engine
error. -/
structure FailureOutcome where
  /-- The status-bar message shown to the user, if any. -/
  statusMessage : Option String
  /-- The mode the engine is left in. -/
  resultMode : ModeName
  /-- Whether the error escaped (was re-thrown out of) the entry point. -/
  propagated : Bool
  /-- Whether the remap/macro expansion stacks were unwound. -/
  remapStackUnwound : Bool
  deriving DecidableEq, Repr

/-- Modelled from the spec: the failure policy of the key-processing
entry points (spec §7; the implementing `ModeHandler` is not in this
slice).  A `VimError` is reported via a status message (its
`toString()`), never re-thrown, and leaves the engine in the mode active
before the offending input; a `ForceStopRemappingError` unwinds the
remap/macro expansion stacks back to Normal mode with no user-visible
message and is likewise not re-thrown. -/
def handleEngineFailure (e : ThrownError) (priorMode : ModeName) : FailureOutcome :=
  match e with
  | .vim v => ⟨some v.toString, priorMode, false, false⟩
  | .forceStop _ => ⟨none, ModeName.Normal, false, true⟩

/-! ## `src/src/cmd_line/commands/sort.ts`

A document is its list of lines; a line is a list of characters (lines
never contain a newline).  JavaScript's default `Array.prototype.sort`
on strings compares them lexicographically by code unit and is stable
(and so is `List.mergeSort`); the locale-dependent comparator used when
`ignoreCase` is set is taken as a parameter, since `localeCompare` is a
host (ICU) function. -/

/-- A line of text. -/
abbrev Str := List Char

/-- Lexicographic code-point "less than" on lines, mirroring the string
comparison JavaScript's default sort comparator performs. -/
def strLt : Str → Str → Bool
  | [], [] => false
  | [], _ :: _ => true
  | _ :: _, [] => false
  | a :: as, b :: bs => if a < b then true else if b < a then false else strLt as bs

/-- The corresponding "less than or equal". -/
def strLe : Str → Str → Bool
  | [], _ => true
  | _ :: _, [] => false
  | a :: as, b :: bs => if a < b then true else if b < a then false else strLe as bs

/-- `[...new Set(originalLines)]` (sort.ts line 50): deduplication that
keeps the first occurrence of each element, in insertion order — the
iteration order the JavaScript `Set` guarantees. -/
def jsSetDedup : List Str → List Str
  | [] => []
  | x :: xs => x :: jsSetDedup (xs.filter (fun y => y != x))
termination_by l => l.length
decreasing_by
  simp_wf
  have := List.length_filter_le (fun y => y != x) xs
  omega

/-- The collection loop of `sortLines` (sort.ts lines 42–48): lines
`startLine .. endLine`, stopping at the end of the document. -/
def collectLines (doc : List Str) (startLine endLine : Nat) : List Str :=
  (doc.take (endLine + 1)).drop startLine

/-- The line at index `i` (out-of-range reads as empty; only used at
clamped indices). -/
def lineAt (doc : List Str) (i : Nat) : Str :=
  doc.getD i []

/-- Attach a prefix of a line to the first inserted line. -/
def attachFront (pre : Str) : List Str → List Str
  | [] => [pre]
  | l :: ls => (pre ++ l) :: ls

/-- Attach a remainder of a line after the last inserted line. -/
def attachBack : List Str → Str → List Str
  | [], suf => [suf]
  | [l], suf => [l ++ suf]
  | l :: ls, suf => l :: attachBack ls suf

/-- Modelled from the spec: the editor abstraction's
`applyEdit(range, newText)` (spec §6; `TextEditor.replace` and the host
edit application are outside this slice).  Replaces the text between
`(sl, sc)` and `(el, ec)` — positions clamped to the document, as the
host validates ranges — with the given lines, splicing the untouched
head of line `sl` and tail of line `el` onto the inserted text.
Assumes `sl ≤ el` (the only way `sortLines` calls it). -/
def applyEdit (doc : List Str) (sl sc el ec : Nat) (newLines : List Str) : List Str :=
  let n := doc.length
  let sl' := min sl (n - 1)
  let el' := min el (n - 1)
  let sc' := min sc (lineAt doc sl').length
  let ec' := min ec (lineAt doc el').length
  let pre := (lineAt doc sl').take sc'
  let suf := (lineAt doc el').drop ec'
  doc.take sl' ++ attachBack (attachFront pre newLines) suf ++ doc.drop (el' + 1)

/-- `ISortCommandArguments` (sort.ts lines 8–12). -/
structure ISortCommandArguments where
  reverse : Bool
  ignoreCase : Bool
  unique : Bool
  deriving DecidableEq, Repr

/-- `SortCommand.sortLines` (sort.ts lines 39–70).  Collects the range's
lines, optionally deduplicates them (`unique`), reads the length of the
*last collected (post-dedup) line* for the range end, sorts (by the
default code-unit comparator, or by `localeCompare` — here the parameter
`localeLe` — when `ignoreCase` is set), optionally reverses, and replaces
`Range(startLine, 0, endLine, lastLineLength)` with the joined result.
When no line was collected, `originalLines[originalLines.length - 1]` is
`undefined` and reading `.length` throws — embedded as `none`. -/
def sortLines (localeLe : Str → Str → Bool) (args : ISortCommandArguments)
    (doc : List Str) (startLine endLine : Nat) : Option (List Str) :=
  let collected := collectLines doc startLine endLine
  let originalLines := if args.unique then jsSetDedup collected else collected
  match originalLines.getLast? with
  | none => none
  | some lastLine =>
    let lastLineLength := lastLine.length
    let sorted :=
      if args.ignoreCase then originalLines.mergeSort localeLe
      else originalLines.mergeSort strLe
    let sortedLines := if args.reverse then sorted.reverse else sorted
    some (applyEdit doc startLine 0 endLine lastLineLength sortedLines)

/-! ## The per-instance task queue

`src/taskQueue.ts` is imported by `extension.ts` (every key event is
wrapped in `taskQueue.enqueueTask`, extension.ts lines 211–221 and
387–393) but is not part of this slice, so the queue is modelled from
the spec (§5): tasks run one at a time, in enqueue order, each completing
before the next starts. -/

/-- An observable event of the queue's execution: a task began running,
or finished. -/
inductive QEvent where
  | started (id : Nat)
  | finished (id : Nat)
  deriving DecidableEq, Repr

/-- Modelled from the spec: the state of one editor instance's task
queue.  `nextId` numbers the tasks in enqueue order; `log` is the
history of execution events. -/
structure TaskQueueState where
  nextId : Nat
  pending : List Nat
  running : Option Nat
  log : List QEvent
  deriving DecidableEq, Repr

/-- The queue before any key event arrives. -/
def initTaskQueue : TaskQueueState := ⟨0, [], none, []⟩

/-- Modelled from the spec: the queue's transitions — enqueue a new task
at the back; start the front pending task, but only when nothing is
running; finish the running task. -/
inductive TaskQueueStep : TaskQueueState → TaskQueueState → Prop where
  | enqueue (s : TaskQueueState) :
      TaskQueueStep s
        { s with nextId := s.nextId + 1, pending := s.pending ++ [s.nextId] }
  | start (s : TaskQueueState) (t : Nat) (rest : List Nat)
      (hrun : s.running = none) (hp : s.pending = t :: rest) :
      TaskQueueStep s
        { s with pending := rest, running := some t, log := s.log ++ [QEvent.started t] }
  | finish (s : TaskQueueState) (t : Nat) (hrun : s.running = some t) :
      TaskQueueStep s
        { s with running := none, log := s.log ++ [QEvent.finished t] }

/-- States the queue can actually be in. -/
inductive TaskQueueReachable : TaskQueueState → Prop where
  | init : TaskQueueReachable initTaskQueue
  | step {s s' : TaskQueueState} :
      TaskQueueReachable s → TaskQueueStep s s' → TaskQueueReachable s'

/-- Scans an execution log keeping track of the task currently in
flight; returns `none` when the log shows two tasks in flight at once, a
task finishing that was not the one running, or a start while another
task is still unfinished. -/
def scanLog : List QEvent → Option Nat → Option (Option Nat)
  | [], cur => some cur
  | QEvent.started t :: rest, none => scanLog rest (some t)
  | QEvent.started _ :: _, some _ => none
  | QEvent.finished t :: rest, some u => if t = u then scanLog rest none else none
  | QEvent.finished _ :: _, none => none

/-- The ids of the tasks that started, in the order they started. -/
def startedIds : List QEvent → List Nat
  | [] => []
  | QEvent.started t :: rest => t :: startedIds rest
  | QEvent.finished _ :: rest => startedIds rest

/-! ## The remap resolver (spec §4.1–§4.2)

Modelled from the spec: the remapper and the action matcher live in
`src/src/mode/modeHandler.ts` and friends, outside this slice (the only
in-slice trace is the remap test fixture in
`src/test/multicursor.test.ts`). -/

/-- The two resolved actions the `"jj" → "<Esc>"` scenario involves. -/
inductive VimAction where
  | escapeAction
  | downMotion
  deriving DecidableEq, Repr

/-- A user remapping: source key sequence and target key sequence (the
shape of the `insertModeKeyBindings` entries in
`src/test/multicursor.test.ts` lines 113–119). -/
structure Remapping where
  before : List String
  after : List String
  deriving DecidableEq, Repr

/-- Modelled from the spec: the fragment of the Normal-mode action
grammar the scenario touches — `j` is the downward motion, `<Esc>` the
escape action (spec §4.2, §8). -/
def actionFor : List String → Option VimAction
  | ["j"] => some VimAction.downMotion
  | ["<Esc>"] => some VimAction.escapeAction
  | _ => none

/-- Modelled from the spec: the mode after a resolved action (spec §4.3)
— escape always lands in Normal, a motion keeps the mode. -/
def modeAfterAction (m : ModeName) : VimAction → ModeName
  | VimAction.escapeAction => ModeName.Normal
  | VimAction.downMotion => m

/-- The resolver's per-instance state: current mode, the recorded key
buffer, and whether the disambiguation timer is running (spec §4.1). -/
structure ResolverState where
  mode : ModeName
  buffer : List String
  timerRunning : Bool
  deriving DecidableEq, Repr

/-- An input to the resolver: a key token, or the disambiguation timer
firing. -/
inductive KeyInput where
  | key (k : String)
  | timeoutFired
  deriving DecidableEq, Repr

/-- The buffer is a strict prefix of at least one remapping source
(spec §4.1 step 2). -/
def ambiguousRemap (buf : List String) (remaps : List Remapping) : Bool :=
  remaps.any (fun r => buf.isPrefixOf r.before && buf != r.before)

/-- Hand a completed buffer to the action matcher (spec §4.1 step 3,
§4.2): a complete match emits the action, applies the mode transition
and clears the buffer; no match silently clears the buffer. -/
def matchAction (s : ResolverState) (buf : List String) :
    ResolverState × List VimAction :=
  match actionFor buf with
  | some a => (⟨modeAfterAction s.mode a, [], false⟩, [a])
  | none => (⟨s.mode, [], false⟩, [])

/-- Modelled from the spec: one step of `feed(token, mode)` (spec §4.1).
On a key: extend the buffer; an exact remap match with no longer
candidate resolves to the target fed through the matcher; a strict
prefix of some source waits (timer running); otherwise the buffer goes
to the action matcher.  On the timer firing: the buffer is resolved as
is by the action matcher. -/
def resolverStep (remaps : List Remapping) (s : ResolverState) (e : KeyInput) :
    ResolverState × List VimAction :=
  match e with
  | KeyInput.key k =>
    let buf := s.buffer ++ [k]
    match remaps.find? (fun r => r.before == buf) with
    | some r =>
      if ambiguousRemap buf remaps then
        (⟨s.mode, buf, true⟩, [])
      else
        matchAction s r.after
    | none =>
      if ambiguousRemap buf remaps then
        (⟨s.mode, buf, true⟩, [])
      else
        matchAction s buf
  | KeyInput.timeoutFired => matchAction s s.buffer

/-- Feed a list of inputs through the resolver, collecting the emitted
actions. -/
def runResolver (remaps : List Remapping) :
    ResolverState → List KeyInput → ResolverState × List VimAction
  | s, [] => (s, [])
  | s, e :: es =>
    let step1 := resolverStep remaps s e
    let rest := runResolver remaps step1.1 es
    (rest.1, step1.2 ++ rest.2)

/-! ## Helper lemmas -/

/-- Every entry of the `ErrorMessage` table is a non-empty string. -/
theorem errorMessage_length_pos (c : ErrorCode) : 0 < (ErrorMessage c).length := by
  cases c <;> decide

/-- Every `VimError` built by `fromCode` carries a non-empty message. -/
theorem fromCode_message_length_pos (code : ErrorCode) (extraValue : Option String) :
    0 < (VimError.fromCode code extraValue).message.length := by
  have h := errorMessage_length_pos code
  cases extraValue with
  | none =>
    simp only [VimError.fromCode, String.length_append]
    omega
  | some v =>
    simp only [VimError.fromCode, String.length_append]
    omega

/-! ## Claims -/

/-- **C2.** The force-stop signal (`ForceStopRemappingError`) is a type
distinct from the user-input error type (`VimError`): in the class
hierarchy of `src/src/error.ts` neither is a subclass of the other (both
extend `Error` directly); every error built by `VimError.fromCode`
carries a non-empty user-visible message; and (per the spec's failure
policy, modelled in `handleEngineFailure`) raising the force-stop signal
unwinds the remap/macro expansion stacks without any user-visible status
message. -/
theorem c2_forceStop_distinct_from_vimError :
    (JsErrorClass.isSubclassOf JsErrorClass.forceStopRemappingError JsErrorClass.vimError
        = false
      ∧ JsErrorClass.isSubclassOf JsErrorClass.vimError JsErrorClass.forceStopRemappingError
        = false
      ∧ JsErrorClass.isSubclassOf JsErrorClass.vimError JsErrorClass.error = true
      ∧ JsErrorClass.isSubclassOf JsErrorClass.forceStopRemappingError JsErrorClass.error
        = true)
    ∧ (∀ (code : ErrorCode) (extraValue : Option String),
        0 < (VimError.fromCode code extraValue).message.length)
    ∧ (∀ (e : ForceStopRemappingError) (m : ModeName),
        (handleEngineFailure (ThrownError.forceStop e) m).statusMessage = none
          ∧ (handleEngineFailure (ThrownError.forceStop e) m).remapStackUnwound = true) :=
  ⟨⟨by decide, by decide, by decide, by decide⟩,
   fun code extraValue => fromCode_message_length_pos code extraValue,
   fun _ _ => ⟨rfl, rfl⟩⟩

/-- **C5.** All the `GlobalState` fields — search history, substitute
state, jump tracker, last full action — are `static`, so a write through
any instance is observed by a read through any other instance: there is
exactly one process-wide copy of each field.  (The `searchStatePrevious`
setter concatenates, so the observed value is the shared list with the
written states appended.) -/
theorem c5_globalState_process_wide (g1 g2 : GlobalState) (σ : GlobalStateStatic) :
    (∀ s, g2.getSearchState (g1.setSearchState σ s) = s)
    ∧ (∀ s, g2.getSubstituteState (g1.setSubstituteState σ s) = s)
    ∧ (∀ s, g2.getPreviousFullAction (g1.setPreviousFullAction σ s) = s)
    ∧ (∀ xs, g2.getSearchStatePrevious (g1.setSearchStatePrevious σ xs)
        = σ._searchStatePrevious ++ xs
        ∧ g2.getSearchStatePrevious (g1.setSearchStatePrevious σ xs)
          = g1.getSearchStatePrevious (g1.setSearchStatePrevious σ xs))
    ∧ g1.getJumpTracker σ = g2.getJumpTracker σ :=
  ⟨fun _ => rfl, fun _ => rfl, fun _ => rfl, fun _ => ⟨rfl, rfl⟩, rfl⟩

/-- **C7.** Every user-input-class failure (each `ErrorCode` of
`src/src/error.ts`, built via `VimError.fromCode`) is consumed by the
key-processing entry point (policy modelled from the spec in
`handleEngineFailure`): it is reported as a status message carrying the
error's non-empty text, it does not propagate out as a thrown exception,
and the engine is left in Normal mode or the mode active before the
offending input. -/
theorem c7_user_input_errors_reported (code : ErrorCode) (extraValue : Option String)
    (m : ModeName) :
    (handleEngineFailure (ThrownError.vim (VimError.fromCode code extraValue)) m).propagated
      = false
    ∧ (handleEngineFailure (ThrownError.vim (VimError.fromCode code extraValue)) m).statusMessage
      = some (VimError.fromCode code extraValue).toString
    ∧ 0 < (VimError.fromCode code extraValue).message.length
    ∧ ((handleEngineFailure (ThrownError.vim (VimError.fromCode code extraValue)) m).resultMode
          = ModeName.Normal
        ∨ (handleEngineFailure (ThrownError.vim (VimError.fromCode code extraValue)) m).resultMode
          = m) :=
  ⟨rfl, rfl, fromCode_message_length_pos code extraValue, Or.inr rfl⟩

/-- **C8.** `GlobalState.load` is idempotent: a second (or any later)
call leaves the whole static state — in particular the
previous-search-state list — exactly as the first completed call left
it; the persisted history is appended exactly once. -/
theorem c8_load_idempotent (g g' : GlobalState) (σ : GlobalStateStatic)
    (p p' : List String) :
    g'.load (g.load σ p) p' = g.load σ p
    ∧ (σ._searchHistory = none →
        (g.load σ p)._searchStatePrevious
          = σ._searchStatePrevious ++ p.map loadedSearchState) := by
  constructor
  · cases hσ : σ._searchHistory with
    | none => simp [GlobalState.load, hσ]
    | some h => simp [GlobalState.load, hσ]
  · intro hσ
    simp [GlobalState.load, hσ]

/-- Witness for `c8_load_idempotent`: a concrete fresh static state. -/
def sampleGlobalStateStatic : GlobalStateStatic :=
  ⟨none, [], none, none, 0, true, ⟨[]⟩, none⟩

theorem c8_load_idempotent_witness :
    sampleGlobalStateStatic._searchHistory = none
    ∧ ((GlobalState.mk 1).load sampleGlobalStateStatic ["foo"])._searchStatePrevious
      = sampleGlobalStateStatic._searchStatePrevious ++ ["foo"].map loadedSearchState :=
  ⟨rfl,
   (c8_load_idempotent (GlobalState.mk 0) (GlobalState.mk 1) sampleGlobalStateStatic
      ["foo"] []).2 rfl⟩

/-- **C9.** The previous-search-state list only grows: the
`searchStatePrevious` setter appends the assigned states to the static
list (assigning `[]` is the identity), and no `GlobalState` operation
ever removes or reorders the existing entries — after any operation the
old list is a prefix of the new one. -/
theorem c9_searchStatePrevious_only_grows (g : GlobalState) (op : GlobalStateOp)
    (σ : GlobalStateStatic) (states : List SearchState) :
    σ._searchStatePrevious <+: (applyGlobalStateOp g op σ)._searchStatePrevious
    ∧ (g.setSearchStatePrevious σ states)._searchStatePrevious
      = σ._searchStatePrevious ++ states
    ∧ g.setSearchStatePrevious σ [] = σ := by
  refine ⟨?_, rfl, by simp [GlobalState.setSearchStatePrevious]⟩
  cases op with
  | setSearchStatePrevious s => exact List.prefix_append _ _
  | setPreviousFullAction s => exact List.prefix_rfl
  | setSubstituteState s => exact List.prefix_rfl
  | setSearchState s => exact List.prefix_rfl
  | setSearchStateIndex s => exact List.prefix_rfl
  | setHl e => exact List.prefix_rfl
  | load p =>
    cases hσ : σ._searchHistory with
    | none =>
      simp only [applyGlobalStateOp, GlobalState.load, hσ]
      exact List.prefix_append _ _
    | some h =>
      simp only [applyGlobalStateOp, GlobalState.load, hσ]
      exact List.prefix_rfl
  | addNewSearchHistoryItem s =>
    cases hσ : σ._searchHistory with
    | none =>
      simp only [applyGlobalStateOp, GlobalState.addNewSearchHistoryItem, hσ]
      exact List.prefix_rfl
    | some h =>
      simp only [applyGlobalStateOp, GlobalState.addNewSearchHistoryItem, hσ]
      exact List.prefix_rfl

/-- **C6.** With the remap table `[ "jj" → "<Esc>" ]`, feeding `j` then
`j` before the disambiguation timer fires resolves to the escape action,
leaving the key buffer empty and the mode Normal; feeding a single `j`
and letting the timer fire resolves the lone `j` as the downward motion
instead (resolver modelled from spec §4.1–§4.2). -/
theorem c6_jj_remap_scenario :
    runResolver [⟨["j", "j"], ["<Esc>"]⟩] ⟨ModeName.Normal, [], false⟩
        [KeyInput.key "j", KeyInput.key "j"]
      = (⟨ModeName.Normal, [], false⟩, [VimAction.escapeAction])
    ∧ runResolver [⟨["j", "j"], ["<Esc>"]⟩] ⟨ModeName.Normal, [], false⟩
        [KeyInput.key "j", KeyInput.timeoutFired]
      = (⟨ModeName.Normal, [], false⟩, [VimAction.downMotion])
    ∧ (runResolver [⟨["j", "j"], ["<Esc>"]⟩] ⟨ModeName.Normal, [], false⟩
        [KeyInput.key "j"]).1.buffer = ["j"] :=
  ⟨rfl, rfl, rfl⟩

/-- **C1 (counterexample).** The claim — that the history tracker
records a checkpoint for *every* reported content mutation regardless of
the editor's mode — is false: `contentChangeHandler` appends the event's
content changes only in Insert mode.  In Normal mode a mutation is not
recorded. -/
theorem c1_counterexample :
    ¬ (∀ (m : ModeName) (cur : Option (List ContentChange)) (ev : List ContentChange),
        contentChangeHandler m cur ev = some (cur.getD [] ++ ev)) := by
  intro h
  have hc := h ModeName.Normal none [⟨0, 0, 0, 1, "x"⟩]
  simp [contentChangeHandler] at hc

/-- **C1 (amended).** The handler records a content mutation — appending
its content changes (each carrying its affected range) to the tracker's
current change list — exactly when the instance's current mode is
Insert; in every other mode, and whenever the extension is disabled, the
mutation is not recorded. -/
theorem c1_insert_only_recording (cur : Option (List ContentChange))
    (ev : List ContentChange) :
    contentChangeHandler ModeName.Insert cur ev = some (cur.getD [] ++ ev)
    ∧ (∀ m : ModeName, m ≠ ModeName.Insert → contentChangeHandler m cur ev = cur)
    ∧ (∀ (m : ModeName) (cur2 : Option (List ContentChange))
        (event : TextDocumentChangeEvent),
        onDidChangeTextDocument true event m cur2 = (cur2, none)) := by
  refine ⟨by simp [contentChangeHandler], ?_, fun m cur2 event => rfl⟩
  intro m hm
  simp [contentChangeHandler, hm]

theorem c1_insert_only_recording_witness :
    ModeName.Normal ≠ ModeName.Insert
    ∧ contentChangeHandler ModeName.Normal (some []) [⟨0, 0, 0, 1, "x"⟩] = some [] :=
  ⟨by decide,
   (c1_insert_only_recording (some []) [⟨0, 0, 0, 1, "x"⟩]).2.1 ModeName.Normal (by decide)⟩

/-- **C3.** While `configuration.disableExtension` is set, every
overridden host command (i.e. every incoming key event) is forwarded
unchanged to the host's default handling before any mode-handler
processing, the document-change handler does no jump or history
tracking, and bound key combinations are not delivered (the `vim.active`
context is false, as set when disabling); the `toggleVim` command is not
key-gated and returns the engine to the enabled state, feeding
`<ExtensionEnable>` to the mode handler. -/
theorem c3_disabled_ignores_all_keys (activeEditor isDebugInput : Bool)
    (event : TextDocumentChangeEvent) (m : ModeName)
    (cur : Option (List ContentChange)) (key : String) :
    overrideCommandDispatch true activeEditor isDebugInput = CommandDispatch.forwardDefault
    ∧ onDidChangeTextDocument true event m cur = (cur, none)
    ∧ deliverBoundKeyCombination false key = none
    ∧ toggleVimCommand true true
      = ⟨false, some true, some "<ExtensionEnable>", false⟩
    ∧ (toggleVimCommand false true).disableExtension = true
    ∧ (toggleVimCommand false true).vimActiveContext = some false :=
  ⟨rfl, rfl, rfl, rfl, rfl, rfl⟩

/-- `scanLog` distributes over append. -/
theorem scanLog_append (l₁ l₂ : List QEvent) (cur : Option Nat) :
    scanLog (l₁ ++ l₂) cur = (scanLog l₁ cur).bind (fun c => scanLog l₂ c) := by
  induction l₁ generalizing cur with
  | nil => rfl
  | cons e rest ih =>
    cases e with
    | started t =>
      cases cur with
      | none => simpa [scanLog] using ih (some t)
      | some u => simp [scanLog]
    | finished t =>
      cases cur with
      | none => simp [scanLog]
      | some u =>
        by_cases h : t = u
        · simpa [scanLog, h] using ih none
        · simp [scanLog, h]

/-- `startedIds` distributes over append. -/
theorem startedIds_append (l₁ l₂ : List QEvent) :
    startedIds (l₁ ++ l₂) = startedIds l₁ ++ startedIds l₂ := by
  induction l₁ with
  | nil => rfl
  | cons e rest ih => cases e <;> simp [startedIds, ih]

/-- **C4.** Key events of one editor instance are processed strictly
sequentially (queue modelled from spec §5; `src/taskQueue.ts` is outside
this slice): in every reachable queue state the execution log is
serial — no task starts while another is unfinished, so no two key
events are ever in flight at once — and tasks start exactly in the order
they were enqueued. -/
theorem c4_keys_processed_sequentially (s : TaskQueueState)
    (h : TaskQueueReachable s) :
    scanLog s.log none = some s.running
    ∧ startedIds s.log ++ s.pending = List.range s.nextId := by
  induction h with
  | init => exact ⟨rfl, rfl⟩
  | step hr hstep ih =>
    cases hstep with
    | enqueue =>
      refine ⟨ih.1, ?_⟩
      simp only [List.range_succ, ← ih.2, List.append_assoc]
    | start t rest hrun hp =>
      constructor
      · rw [scanLog_append, ih.1, hrun]
        rfl
      · rw [startedIds_append, ← ih.2, hp]
        simp [startedIds]
    | finish t hrun =>
      constructor
      · rw [scanLog_append, ih.1, hrun]
        simp [scanLog]
      · rw [startedIds_append, ← ih.2]
        simp [startedIds]

/-- A concrete queue history: one task enqueued, started and finished. -/
def sampleQueueState : TaskQueueState :=
  ⟨1, [], none, [QEvent.started 0, QEvent.finished 0]⟩

theorem c4_keys_processed_sequentially_witness :
    scanLog sampleQueueState.log none = some sampleQueueState.running
    ∧ startedIds sampleQueueState.log ++ sampleQueueState.pending
      = List.range sampleQueueState.nextId :=
  c4_keys_processed_sequentially sampleQueueState
    (TaskQueueReachable.step
      (TaskQueueReachable.step
        (TaskQueueReachable.step TaskQueueReachable.init (TaskQueueStep.enqueue _))
        (TaskQueueStep.start _ 0 [] rfl rfl))
      (TaskQueueStep.finish _ 0 rfl))

/-- `strLe` is transitive (via the linear order on `Char`). -/
theorem strLe_trans (a b c : Str) (h1 : strLe a b = true) (h2 : strLe b c = true) :
    strLe a c = true := by
  induction a generalizing b c with
  | nil => rfl
  | cons x xs ih =>
    cases b with
    | nil => simp [strLe] at h1
    | cons y ys =>
      cases c with
      | nil => simp [strLe] at h2
      | cons z zs =>
        simp only [strLe] at h1 h2 ⊢
        by_cases hxy : x < y
        · by_cases hyz : y < z
          · simp [lt_trans hxy hyz]
          · by_cases hzy : z < y
            · rw [if_neg hyz, if_pos hzy] at h2
              exact absurd h2 (by simp)
            · have hyzeq : y = z := le_antisymm (not_lt.mp hzy) (not_lt.mp hyz)
              subst hyzeq
              simp [hxy]
        · by_cases hyx : y < x
          · rw [if_neg hxy, if_pos hyx] at h1
            exact absurd h1 (by simp)
          · have hxyeq : x = y := le_antisymm (not_lt.mp hyx) (not_lt.mp hxy)
            subst hxyeq
            rw [if_neg hxy, if_neg hyx] at h1
            by_cases hxz : x < z
            · simp [hxz]
            · by_cases hzx : z < x
              · rw [if_neg hxz, if_pos hzx] at h2
                exact absurd h2 (by simp)
              · rw [if_neg hxz, if_neg hzx] at h2 ⊢
                exact ih ys zs h1 h2

/-- `strLe` is total. -/
theorem strLe_total (a b : Str) : (strLe a b || strLe b a) = true := by
  induction a generalizing b with
  | nil => rfl
  | cons x xs ih =>
    cases b with
    | nil => rfl
    | cons y ys =>
      simp only [strLe]
      by_cases hxy : x < y
      · simp [hxy]
      · by_cases hyx : y < x
        · simp [hxy, hyx]
        · rw [if_neg hxy, if_neg hyx, if_neg hyx, if_neg hxy]
          exact ih ys

/-- `jsSetDedup` preserves membership. -/
theorem mem_jsSetDedup (x : Str) (l : List Str) : x ∈ jsSetDedup l ↔ x ∈ l := by
  induction l using jsSetDedup.induct with
  | case1 => simp [jsSetDedup]
  | case2 y ys ih =>
    rw [jsSetDedup]
    by_cases hxy : x = y
    · simp [hxy]
    · simp only [List.mem_cons, hxy, false_or]
      rw [ih, List.mem_filter]
      simp [hxy, bne_iff_ne]

/-- `jsSetDedup` produces a list without duplicates. -/
theorem nodup_jsSetDedup (l : List Str) : (jsSetDedup l).Nodup := by
  induction l using jsSetDedup.induct with
  | case1 => simp [jsSetDedup]
  | case2 y ys ih =>
    rw [jsSetDedup]
    refine List.Nodup.cons ?_ ih
    intro hmem
    rw [mem_jsSetDedup, List.mem_filter] at hmem
    simp at hmem

/-- Deduplicating a non-empty list yields a non-empty list. -/
theorem jsSetDedup_ne_nil (l : List Str) (h : l ≠ []) : jsSetDedup l ≠ [] := by
  cases l with
  | nil => exact absurd rfl h
  | cons x xs =>
    rw [jsSetDedup]
    exact List.cons_ne_nil _ _

theorem attachFront_nil_pre (ls : List Str) (h : ls ≠ []) : attachFront [] ls = ls := by
  cases ls with
  | nil => exact absurd rfl h
  | cons l rest => simp [attachFront]

theorem attachBack_nil_suf : ∀ (ls : List Str), ls ≠ [] → attachBack ls [] = ls
  | [], h => absurd rfl h
  | [l], _ => by simp [attachBack]
  | l :: l₂ :: ls, _ => by
    rw [attachBack, attachBack_nil_suf (l₂ :: ls) (List.cons_ne_nil _ _)]
    exact fun h => List.noConfusion h

theorem collectLines_length (doc : List Str) (sl el : Nat) :
    (collectLines doc sl el).length = min (el + 1) doc.length - sl := by
  simp [collectLines]

/-- A range holding at least one existing line collects at least one
line. -/
theorem collectLines_ne_nil (doc : List Str) (sl el : Nat)
    (h1 : sl < doc.length) (h2 : sl ≤ el) : collectLines doc sl el ≠ [] := by
  intro h
  have := collectLines_length doc sl el
  rw [h] at this
  simp at this
  omega

/-- The last collected line is the line at `min endLine (lineCount-1)`. -/
theorem collectLines_getLast (doc : List Str) (sl el : Nat)
    (h1 : sl < doc.length) (h2 : sl ≤ el) :
    (collectLines doc sl el).getLast? = some (lineAt doc (min el (doc.length - 1))) := by
  rw [List.getLast?_eq_getElem?]
  rw [collectLines, List.getElem?_drop, List.getElem?_take]
  have hlen : (List.drop sl (List.take (el + 1) doc)).length
      = min (el + 1) doc.length - sl := by simp
  rw [hlen]
  rw [if_pos (by omega),
    show sl + (min (el + 1) doc.length - sl - 1) = min el (doc.length - 1) by omega]
  rw [List.getElem?_eq_getElem (by omega)]
  simp [lineAt, List.getD_eq_getElem?_getD,
    List.getElem?_eq_getElem (show min el (doc.length - 1) < doc.length by omega)]

/-- When the replaced range starts at column 0 and ends exactly at the
end of its (clamped) last line, the edit replaces whole lines. -/
theorem applyEdit_full (doc : List Str) (sl el : Nat) (newLines : List Str)
    (h1 : sl < doc.length) (h3 : newLines ≠ []) :
    applyEdit doc sl 0 el (lineAt doc (min el (doc.length - 1))).length newLines
      = doc.take sl ++ newLines ++ doc.drop (min el (doc.length - 1) + 1) := by
  have hsl : min sl (doc.length - 1) = sl := by omega
  unfold applyEdit
  simp only [hsl, Nat.zero_min, List.take_zero, Nat.min_self, List.drop_length,
    attachFront_nil_pre newLines h3, attachBack_nil_suf newLines h3]

/-- **C10.** For a line range holding at least one existing document
line, `sortLines` with `unique = false` replaces the range (the
document keeps its lines before `startLine` and after the clamped
`endLine`) with a stable merge sort of exactly the collected lines —
a permutation of them, in ascending `strLe` order when
`reverse = false`, and the exact reversal of that sorted list when
`reverse = true`.  With `unique = true` the deduplicated list (first
occurrences kept, so no duplicates and the same set of lines) is sorted
instead — *provided* the clamped last line of the range has the same
length as the last element of the deduplicated list (else the trailing
remainder of the range's last line survives the replacement; see the
counterexample). -/
theorem c10_sortLines_correct (doc : List Str) (sl el : Nat)
    (localeLe : Str → Str → Bool) (rev : Bool)
    (h1 : sl < doc.length) (h2 : sl ≤ el) :
    (sortLines localeLe ⟨rev, false, false⟩ doc sl el
      = some (doc.take sl
          ++ (if rev then ((collectLines doc sl el).mergeSort strLe).reverse
              else (collectLines doc sl el).mergeSort strLe)
          ++ doc.drop (min el (doc.length - 1) + 1)))
    ∧ ((collectLines doc sl el).mergeSort strLe).Perm (collectLines doc sl el)
    ∧ List.Pairwise (fun a b => strLe a b = true) ((collectLines doc sl el).mergeSort strLe)
    ∧ ((lineAt doc (min el (doc.length - 1))).length
          = ((jsSetDedup (collectLines doc sl el)).getLast?.getD []).length →
        sortLines localeLe ⟨rev, false, true⟩ doc sl el
          = some (doc.take sl
              ++ (if rev then ((jsSetDedup (collectLines doc sl el)).mergeSort strLe).reverse
                  else (jsSetDedup (collectLines doc sl el)).mergeSort strLe)
              ++ doc.drop (min el (doc.length - 1) + 1)))
    ∧ (jsSetDedup (collectLines doc sl el)).Nodup
    ∧ (∀ x, x ∈ jsSetDedup (collectLines doc sl el) ↔ x ∈ collectLines doc sl el) := by
  have hne : collectLines doc sl el ≠ [] := collectLines_ne_nil doc sl el h1 h2
  have hlast := collectLines_getLast doc sl el h1 h2
  have hsort_ne : (collectLines doc sl el).mergeSort strLe ≠ [] := by
    intro h
    have hl := (List.mergeSort_perm (collectLines doc sl el) strLe).length_eq
    rw [h] at hl
    exact hne (List.length_eq_zero.mp hl.symm)
  refine ⟨?_, List.mergeSort_perm _ _, List.sorted_mergeSort strLe_trans strLe_total _,
    ?_, nodup_jsSetDedup _, fun x => mem_jsSetDedup x _⟩
  · unfold sortLines
    simp only [Bool.false_eq_true, if_false, hlast]
    rw [applyEdit_full doc sl el _ h1 (by cases rev <;> simp [hsort_ne])]
  · intro heq
    have hdne : jsSetDedup (collectLines doc sl el) ≠ [] := jsSetDedup_ne_nil _ hne
    obtain ⟨L, hL⟩ : ∃ L, (jsSetDedup (collectLines doc sl el)).getLast? = some L := by
      cases hg : (jsSetDedup (collectLines doc sl el)).getLast? with
      | none => exact absurd (List.getLast?_eq_none_iff.mp hg) hdne
      | some L => exact ⟨L, rfl⟩
    have hdsort_ne : (jsSetDedup (collectLines doc sl el)).mergeSort strLe ≠ [] := by
      intro h
      have hl := (List.mergeSort_perm (jsSetDedup (collectLines doc sl el)) strLe).length_eq
      rw [h] at hl
      exact hdne (List.length_eq_zero.mp hl.symm)
    rw [hL] at heq
    simp only [Option.getD_some] at heq
    unfold sortLines
    simp only [Bool.false_eq_true, if_false, if_true, hL]
    rw [show L.length = (lineAt doc (min el (doc.length - 1))).length from heq.symm]
    rw [applyEdit_full doc sl el _ h1 (by cases rev <;> simp [hdsort_ne])]

unseal List.merge List.mergeSort jsSetDedup in
/-- **C10 (counterexample).** The `unique = true` clause of the claim is
false as stated: on the document `["bb", "a", "bb"]`, sorting lines 0–2
with `unique` set yields `["a", "bbb"]` — the replacement range ends at
the length of the last *deduplicated* line (`"a"`, length 1), not of the
range's actual last line (`"bb"`), so a trailing `"b"` survives and is
glued onto the inserted text: the resulting range is not a list in which
each distinct original line appears exactly once. -/
theorem c10_unique_counterexample :
    ¬ (∀ (doc : List Str) (sl el : Nat) (localeLe : Str → Str → Bool) (rev : Bool),
        sl < doc.length → sl ≤ el →
        ∃ uniq : List Str,
          sortLines localeLe ⟨rev, false, true⟩ doc sl el
            = some (doc.take sl ++ uniq ++ doc.drop (min el (doc.length - 1) + 1))
          ∧ ∀ x, x ∈ uniq ↔ x ∈ collectLines doc sl el) := by
  intro h
  obtain ⟨uniq, he, hm⟩ :=
    h [['b', 'b'], ['a'], ['b', 'b']] 0 2 (fun _ _ => true) false (by decide) (by decide)
  have hcomp : sortLines (fun _ _ => true) ⟨false, false, true⟩
      [['b', 'b'], ['a'], ['b', 'b']] 0 2 = some [['a'], ['b', 'b', 'b']] := by rfl
  rw [hcomp] at he
  simp only [List.take_zero, List.nil_append, Option.some.injEq] at he
  have huniq : uniq = [['a'], ['b', 'b', 'b']] := by
    have hd : List.drop (min 2 (([['b', 'b'], ['a'], ['b', 'b']] : List Str).length - 1) + 1)
        ([['b', 'b'], ['a'], ['b', 'b']] : List Str) = [] := by decide
    rw [hd, List.append_nil] at he
    exact he.symm
  subst huniq
  have hmm := hm ['b', 'b', 'b']
  exact absurd (hmm.mp (by decide)) (by decide)

unseal List.merge List.mergeSort in
theorem c10_sortLines_correct_witness :
    (0 < ([['b'], ['a']] : List Str).length) ∧ (0 ≤ 1)
    ∧ sortLines (fun _ _ => true) ⟨false, false, false⟩ [['b'], ['a']] 0 1
      = some [['a'], ['b']] :=
  ⟨by decide, by decide, by
    have h := (c10_sortLines_correct [['b'], ['a']] 0 1 (fun _ _ => true) false
      (by decide) (by decide)).1
    rw [h]
    rfl⟩

end ColemakVim
